import Mathlib

set_option maxHeartbeats 1000000
set_option maxRecDepth 4000

/-!
Verification of the project filter / search / deep-link engine of
`script.js` (portfolio page).  JavaScript strings are embedded as
`List Char`; JavaScript values that can reach the string-normalisation
entry points are embedded as `JSVal`.  Browser primitives that the code
calls (`String.prototype` methods, `URLSearchParams`,
`history.replaceState`, timers) are modelled by executable Lean
functions; whitespace handling is modelled on the ASCII whitespace
class, and `URLSearchParams` serialisation is modelled as
`application/x-www-form-urlencoded` with UTF-8 percent encoding.
-/

namespace Portfolio

/-- A JavaScript string, embedded as its list of Unicode scalar values. -/
abbrev JSStr := List Char

/-- The JavaScript values that can flow into `normalize` / `String(v)` in
this program: `null`, `undefined`, strings, (integer) numbers, booleans. -/
inductive JSVal where
  | null
  | undef
  | str (s : JSStr)
  | num (n : Int)
  | bool (b : Bool)
deriving DecidableEq

/-- `String(v)`: JavaScript string conversion. -/
def jsValToString : JSVal → JSStr
  | .null => "null".toList
  | .undef => "undefined".toList
  | .str s => s
  | .num n => (toString n).toList
  | .bool true => "true".toList
  | .bool false => "false".toList

/-- `(v ?? '').toString()`: nullish coalescing to the empty string, then
string conversion (from `normalize`, script.js lines 16-18). -/
def jsCoalesceToString : JSVal → JSStr
  | .null => []
  | .undef => []
  | v => jsValToString v

/-- The ASCII part of the JavaScript whitespace class `\s` (also used by
`String.prototype.trim`). -/
def isWS (c : Char) : Bool :=
  c = ' ' || c = '\t' || c = '\n' || c = '\r' || c = '\x0b' || c = '\x0c'

/-- `.toLowerCase()` (ASCII case mapping). -/
def jsToLower (s : JSStr) : JSStr := s.map Char.toLower

/-- `.trim()`: drop whitespace from both ends. -/
def jsTrim (s : JSStr) : JSStr :=
  ((s.dropWhile isWS).reverse.dropWhile isWS).reverse

/-- `.replace(/\s+/g, ' ')`: every maximal whitespace run becomes a single
space. -/
def collapseWS : JSStr → JSStr
  | [] => []
  | [c] => if isWS c then [' '] else [c]
  | c :: d :: rest =>
    if isWS c then
      if isWS d then collapseWS (d :: rest)
      else ' ' :: collapseWS (d :: rest)
    else c :: collapseWS (d :: rest)

/-- `normalize` (script.js lines 16-21):
`(str ?? '').toString().toLowerCase().trim().replace(/\s+/g, ' ')`. -/
def normalize (v : JSVal) : JSStr :=
  collapseWS (jsTrim (jsToLower (jsCoalesceToString v)))

/-- `normalize` applied to a string argument. -/
def normalizeStr (s : JSStr) : JSStr := normalize (.str s)

/-- Helper for `split(/\s+/)`: JavaScript regex split on maximal
whitespace runs (a leading run yields a leading empty element, a
trailing run a trailing empty element). -/
def splitWSAux : JSStr → JSStr → List JSStr
  | [], acc => [acc.reverse]
  | [c], acc => if isWS c then [acc.reverse, []] else [(c :: acc).reverse]
  | c :: d :: rest, acc =>
    if isWS c then
      if isWS d then splitWSAux (d :: rest) acc
      else acc.reverse :: splitWSAux (d :: rest) []
    else splitWSAux (d :: rest) (c :: acc)

/-- `s.split(/\s+/)`. -/
def splitWS (s : JSStr) : List JSStr := splitWSAux s []

/-- `Array.prototype.join(sep)` for a one-character separator. -/
def joinCh (sep : Char) : List JSStr → JSStr
  | [] => []
  | [p] => p
  | p :: q :: rest => p ++ sep :: joinCh sep (q :: rest)

/-- `String.prototype.startsWith`. -/
def jsStartsWith : JSStr → JSStr → Bool
  | _, [] => true
  | [], _ :: _ => false
  | a :: as, b :: bs => a == b && jsStartsWith as bs

/-- `String.prototype.includes`: contiguous-substring test. -/
def jsIncludes (s needle : JSStr) : Bool :=
  match s with
  | [] => jsStartsWith [] needle
  | c :: rest => jsStartsWith (c :: rest) needle || jsIncludes rest needle

/-! ### The project index (script.js lines 307-317) -/

/-- The DOM inputs of one project card: its `data-tags` attribute (absent
attributes read as `null`), the text of its `h3` title (absent as
`undefined`), and its whole text content. -/
structure ProjectCard where
  dataTags : Option JSStr
  title : Option JSStr
  text : JSStr
deriving DecidableEq

/-- One in-memory index record: tag tokens plus the searchable blob. -/
structure ProjectRecord where
  tags : List JSStr
  blob : JSStr
deriving DecidableEq

/-- Index-record construction (script.js lines 307-317):
`tagsRaw = normalize(el.getAttribute('data-tags') || '')`,
`tags = tagsRaw ? tagsRaw.split(/\s+/).filter(Boolean) : []`,
`blob = `${title} ${tags.join(' ')} ${body}`.trim()`. -/
def buildRecord (card : ProjectCard) : ProjectRecord :=
  let tagsRaw := normalizeStr (card.dataTags.getD [])
  let tags := if tagsRaw = [] then [] else (splitWS tagsRaw).filter (fun t => ¬ t.isEmpty)
  let title := normalizeStr (card.title.getD [])
  let body := normalizeStr card.text
  { tags := tags
    blob := jsTrim (title ++ ' ' :: joinCh ' ' tags ++ ' ' :: body) }

/-! ### Filter state and predicates (script.js lines 319-339) -/

/-- The sentinel filter value `'all'`. -/
def allTok : JSStr := "all".toList

/-- The two mutable module-level variables `activeFilter` / `activeQuery`. -/
structure FilterState where
  activeFilter : JSStr
  activeQuery : JSStr
deriving DecidableEq

/-- Initial state: `let activeFilter = 'all'; let activeQuery = '';`. -/
def defaultState : FilterState := { activeFilter := allTok, activeQuery := [] }

/-- `matchesFilter` (line 327): `activeFilter === 'all' ? true :
item.tags.includes(activeFilter)`. -/
def matchesFilter (st : FilterState) (item : ProjectRecord) : Bool :=
  if st.activeFilter = allTok then true else item.tags.contains st.activeFilter

/-- `matchesSearch` (line 328): `!activeQuery ? true :
item.blob.includes(activeQuery)`. -/
def matchesSearch (st : FilterState) (item : ProjectRecord) : Bool :=
  if st.activeQuery = [] then true else jsIncludes item.blob st.activeQuery

/-- The rendering output of `applyFilters` (lines 330-339): per-record
visibility (in index order), the visible counter, and whether the
`#noResults` empty-state indicator is displayed. -/
structure RenderOut where
  visible : List Bool
  visibleCount : Nat
  noResultsShown : Bool
deriving DecidableEq

/-- `applyFilters`, rendering part (lines 330-339): each record is shown
iff `matchesFilter(item) && matchesSearch(item)`; `visible` counts the
shown records; `#noResults` is displayed iff the count is zero. -/
def applyFilters (st : FilterState) (index : List ProjectRecord) : RenderOut :=
  let vis := index.map fun item => matchesFilter st item && matchesSearch st item
  { visible := vis
    visibleCount := vis.count true
    noResultsShown := vis.count true == 0 }

/-- `setFilter` (lines 353-358), state transition:
`activeFilter = normalize(next) || 'all'`. -/
def setFilter (st : FilterState) (next : JSVal) : FilterState :=
  let n := normalize next
  { st with activeFilter := if n = [] then allTok else n }

/-- `setQuery` (lines 360-363), state transition:
`activeQuery = normalize(q)`. -/
def setQuery (st : FilterState) (q : JSVal) : FilterState :=
  { st with activeQuery := normalize q }

/-! ### URLSearchParams model

`URLSearchParams` serialises with `application/x-www-form-urlencoded`:
ASCII alphanumerics and `*-._` are kept, space becomes `+`, every other
character becomes `%XX` (uppercase hex) per UTF-8 byte.  Parsing splits
on `&`, splits each piece at its first `=`, and percent-decodes. -/

/-- Uppercase hex digit of a nibble. -/
def hexUpperDigit (n : Nat) : Char :=
  if n < 10 then Char.ofNat (48 + n) else Char.ofNat (55 + n)

/-- Value of a hex digit character (either case), `none` otherwise. -/
def hexDigitValue (c : Char) : Option Nat :=
  if 48 ≤ c.toNat ∧ c.toNat ≤ 57 then some (c.toNat - 48)
  else if 97 ≤ c.toNat ∧ c.toNat ≤ 102 then some (c.toNat - 87)
  else if 65 ≤ c.toNat ∧ c.toNat ≤ 70 then some (c.toNat - 55)
  else none

/-- UTF-8 encoding of one Unicode scalar value, as byte values. -/
def utf8Bytes (c : Char) : List Nat :=
  let n := c.toNat
  if n < 128 then [n]
  else if n < 2048 then [192 + n / 64, 128 + n % 64]
  else if n < 65536 then [224 + n / 4096, 128 + n / 64 % 64, 128 + n % 64]
  else [240 + n / 262144, 128 + n / 4096 % 64, 128 + n / 64 % 64, 128 + n % 64]

/-- UTF-8 continuation byte test. -/
def isCont (b : Nat) : Bool := 128 ≤ b && b < 192

/-- The Unicode replacement character, produced for invalid byte
sequences. -/
def replChar : Char := Char.ofNat 65533

/-- UTF-8 decoding, as a streaming state machine over the byte list (the
shape of the WHATWG decoder): `k` is the number of continuation bytes
still expected (`0` = between scalars), `v` the value accumulated so
far, `m` the smallest value the current sequence length may produce
(which rejects overlong forms).  Valid sequences decode exactly; an
invalid byte yields the replacement character. -/
def utf8DecodeSM : Nat → Nat → Nat → List Nat → List Char
  | 0, _, _, [] => []
  | _+1, _, _, [] => [replChar]
  | 0, _, _, b :: rest =>
    if b < 128 then Char.ofNat b :: utf8DecodeSM 0 0 0 rest
    else if 194 ≤ b ∧ b ≤ 223 then utf8DecodeSM 1 (b - 192) 128 rest
    else if 224 ≤ b ∧ b ≤ 239 then utf8DecodeSM 2 (b - 224) 2048 rest
    else if 240 ≤ b ∧ b ≤ 244 then utf8DecodeSM 3 (b - 240) 65536 rest
    else replChar :: utf8DecodeSM 0 0 0 rest
  | 1, v, m, b :: rest =>
    if isCont b then
      if m ≤ v * 64 + (b - 128) ∧ ¬ (55296 ≤ v * 64 + (b - 128) ∧ v * 64 + (b - 128) ≤ 57343)
          ∧ v * 64 + (b - 128) ≤ 1114111 then
        Char.ofNat (v * 64 + (b - 128)) :: utf8DecodeSM 0 0 0 rest
      else replChar :: utf8DecodeSM 0 0 0 rest
    else replChar :: utf8DecodeSM 0 0 0 rest
  | k+2, v, m, b :: rest =>
    if isCont b then utf8DecodeSM (k+1) (v * 64 + (b - 128)) m rest
    else replChar :: utf8DecodeSM 0 0 0 rest

/-- UTF-8 decoding of a byte list. -/
def utf8DecodeBytes (bs : List Nat) : List Char := utf8DecodeSM 0 0 0 bs

/-- Characters kept verbatim by form encoding: ASCII alphanumerics and
`*-._` . -/
def isFormSafe (c : Char) : Bool :=
  c.isAlphanum || c = '*' || c = '-' || c = '.' || c = '_'

/-- Form encoding of one component (key or value). -/
def encodeComponent (s : JSStr) : JSStr :=
  s.flatMap fun c =>
    if isFormSafe c then [c]
    else if c = ' ' then ['+']
    else (utf8Bytes c).flatMap fun b => ['%', hexUpperDigit (b / 16), hexUpperDigit (b % 16)]

/-- Form decoding of one component, byte level: `+` is a space, `%XX`
(valid hex) a byte, any other character contributes its UTF-8 bytes.  A
`%` not followed by two hex digits stands for itself (the characters
examined after it are then taken literally — a simplification of the
browser behaviour that is unreachable from the encoder output used in
the theorems). -/
def percentDecodeBytes : JSStr → List Nat
  | [] => []
  | c :: rest =>
    if c = '+' then 32 :: percentDecodeBytes rest
    else if c = '%' then
      match rest with
      | h :: l :: rest2 =>
        match hexDigitValue h, hexDigitValue l with
        | some hv, some lv => (16 * hv + lv) :: percentDecodeBytes rest2
        | _, _ => 37 :: (utf8Bytes h ++ utf8Bytes l ++ percentDecodeBytes rest2)
      | [h] => 37 :: utf8Bytes h
      | [] => [37]
    else utf8Bytes c ++ percentDecodeBytes rest

/-- Form decoding of one component. -/
def decodeComponent (s : JSStr) : JSStr :=
  utf8DecodeBytes (percentDecodeBytes s)

/-- `s.split(sep)` for a one-character separator (accumulator form). -/
def splitOnChAux (sep : Char) : JSStr → JSStr → List JSStr
  | [], acc => [acc.reverse]
  | c :: rest, acc =>
    if c = sep then acc.reverse :: splitOnChAux sep rest []
    else splitOnChAux sep rest (c :: acc)

/-- `s.split(sep)` for a one-character separator. -/
def splitOnCh (sep : Char) (s : JSStr) : List JSStr := splitOnChAux sep s []

/-- A parameter list, the contents of a `URLSearchParams`. -/
abbrev Params := List (JSStr × JSStr)

/-- `URLSearchParams.toString()`. -/
def paramsToString (ps : Params) : JSStr :=
  joinCh '&' (ps.map fun p => encodeComponent p.1 ++ '=' :: encodeComponent p.2)

/-- `new URLSearchParams(string)`: split on `&`, drop empty pieces,
split each piece at its first `=` (`splitFirstEq`), decode both sides. -/
def splitFirstEq : JSStr → JSStr × JSStr
  | [] => ([], [])
  | c :: rest =>
    if c = '=' then ([], rest)
    else
      let p := splitFirstEq rest
      (c :: p.1, p.2)

/-- `new URLSearchParams(string)`. -/
def parseParams (q : JSStr) : Params :=
  (splitOnCh '&' q).filterMap fun part =>
    if part = [] then none
    else
      let p := splitFirstEq part
      some (decodeComponent p.1, decodeComponent p.2)

/-- `URLSearchParams.get(k)`: first value for the key, else `null`. -/
def paramsGet (ps : Params) (k : JSStr) : Option JSStr :=
  (ps.find? fun p => p.1 == k).map fun p => p.2

/-- `URLSearchParams.set(k, v)`: replace the first binding of the key
(removing later duplicates), else append. -/
def paramsDeleteKey : Params → JSStr → Params
  | [], _ => []
  | p :: rest, k =>
    if p.1 = k then paramsDeleteKey rest k else p :: paramsDeleteKey rest k

/-- `URLSearchParams.set(k, v)`. -/
def paramsSet : Params → JSStr → JSStr → Params
  | [], k, v => [(k, v)]
  | p :: rest, k, v =>
    if p.1 = k then (k, v) :: paramsDeleteKey rest k
    else p :: paramsSet rest k v

/-! ### Hash param helpers (script.js lines 49-67) -/

/-- The `'#projects'` anchor token. -/
def projTok : JSStr := "#projects".toList

/-- The `'tag'` parameter key. -/
def tagKey : JSStr := "tag".toList

/-- The `'query'` parameter key. -/
def queryKey : JSStr := "query".toList

/-- `readHashParams` (lines 49-54): split the fragment at `?`, first part
is the anchor (defaulted to `''`), second part (defaulted to `''`) is
parsed as `URLSearchParams`. -/
def readHashParams (hash : JSStr) : JSStr × Params :=
  let parts := splitOnCh '?' hash
  let anchor := parts.headD []
  let query := (parts.drop 1).headD []
  (anchor, parseParams query)

/-- `writeHashParams` (lines 56-67), pure part: skip `undefined`/`null`
values and values whose trimmed string form is empty, `set` the rest;
append `?` + query string to the anchor only when the query string is
nonempty. -/
def buildParams (kv : List (JSStr × JSVal)) : Params :=
  List.foldl
    (fun ps p =>
      match p.2 with
      | JSVal.undef => ps
      | JSVal.null => ps
      | v =>
        let s := jsTrim (jsValToString v)
        if s = [] then ps else paramsSet ps p.1 s)
    [] kv

/-- The fragment string written by `writeHashParams` (lines 56-66). -/
def writeHashNext (anchor : JSStr) (kv : List (JSStr × JSVal)) : JSStr :=
  let q := paramsToString (buildParams kv)
  if q = [] then anchor else anchor ++ '?' :: q

/-- The browser state the URL code touches: current fragment and the
number of entries in session history. -/
structure Browser where
  hash : JSStr
  histLen : Nat
deriving DecidableEq

/-- `history.replaceState(null, '', next)`: in-place replacement, the
entry count is untouched. -/
def historyReplaceState (b : Browser) (next : JSStr) : Browser :=
  { b with hash := next }

/-- `writeHashParams` (lines 56-67), browser effect. -/
def writeHashParams (b : Browser) (anchor : JSStr) (kv : List (JSStr × JSVal)) : Browser :=
  historyReplaceState b (writeHashNext anchor kv)

/-- The `(activeFilter, activeQuery)` key/value object passed to
`writeHashParams` by `applyFilters` (lines 345-348):
`{ tag: activeFilter !== 'all' ? activeFilter : '', query: activeQuery || '' }`. -/
def stateKV (st : FilterState) : List (JSStr × JSVal) :=
  [(tagKey, JSVal.str (if st.activeFilter ≠ allTok then st.activeFilter else [])),
   (queryKey, JSVal.str (if st.activeQuery = [] then [] else st.activeQuery))]

/-- The guard of lines 342-343: `anchor === '#projects' ||
window.location.hash.startsWith('#projects')`. -/
def atProjectsHash (hash : JSStr) : Bool :=
  decide ((readHashParams hash).1 = projTok) || jsStartsWith hash projTok

/-- `applyFilters`, URL part (lines 341-350): when `updateUrl` is set and
the guard (or an empty anchor) holds, the current state is written to
the fragment by in-place history replacement; otherwise the browser is
untouched. -/
def applyFiltersUrl (st : FilterState) (updateUrl : Bool) (b : Browser) : Browser :=
  if updateUrl then
    let anchor := (readHashParams b.hash).1
    if atProjectsHash b.hash || decide (anchor = []) then
      writeHashParams b projTok (stateKV st)
    else b
  else b

/-! ### Initialisation from the fragment (script.js lines 390-407) -/

/-- `params.get('tag') || ''` for a fragment. -/
def tagParamOf (hash : JSStr) : JSStr :=
  (paramsGet (readHashParams hash).2 tagKey).getD []

/-- `params.get('query') || ''` for a fragment. -/
def queryParamOf (hash : JSStr) : JSStr :=
  (paramsGet (readHashParams hash).2 queryKey).getD []

/-- State produced by the initialisation block (lines 390-407).  On the
projects anchor: `tag = normalize(params.get('tag') || '')`, then
`setFilter(tag || 'all')` and `setQuery(query)` (the branch without a
search input assigns `activeQuery = normalize(query)` directly, which is
the same state).  Off the projects anchor the default state is kept and
`applyFilters` runs with `updateUrl: false`. -/
def initStateFromHash (hash : JSStr) : FilterState :=
  if atProjectsHash hash then
    let tag := normalizeStr (tagParamOf hash)
    let query := queryParamOf hash
    setQuery (setFilter defaultState (.str (if tag = [] then allTok else tag))) (.str query)
  else defaultState

/-! ### Debounced search input (script.js lines 26-32 and 377-379)

`onSearch = debounce(() => setQuery(searchInput.value), 80)`.  The model
makes the timer explicit: an input event stores the new field value and
(via the debounce closure) clears any pending timeout and arms a fresh
one; when a timeout expires it runs `setQuery(searchInput.value)` once.
`recomputes` logs the query value of every executed recomputation. -/
structure SearchBox where
  value : JSStr
  timerArmed : Bool
  recomputes : List JSStr
deriving DecidableEq

/-- One `input` event carrying the new field content: the debounce
wrapper cancels the pending timer and restarts it. -/
def searchInputEvent (sb : SearchBox) (typed : JSStr) : SearchBox :=
  { sb with value := typed, timerArmed := true }

/-- Expiry of the armed timer after a quiet interval: the debounced
callback reads the field and recomputes visibility once. -/
def searchTimerExpire (sb : SearchBox) : SearchBox :=
  if sb.timerArmed then
    { sb with timerArmed := false, recomputes := sb.recomputes ++ [sb.value] }
  else sb

/-! ### Verification-side definitions -/

/-- Canonical-whitespace test: every whitespace character is a single
space and no two whitespace characters are adjacent.  This is the shape
`collapseWS` produces; it is used to prove normalisation idempotent. -/
def wsCanon : List Char → Bool
  | [] => true
  | [c] => !isWS c || c = ' '
  | c :: d :: rest => (!isWS c || (c = ' ' && !isWS d)) && wsCanon (d :: rest)

/-- The normal-form invariant of the filter state: `activeFilter` is a
nonempty token fixed by `normalize` (hence lowercase, trimmed,
whitespace-collapsed) and `activeQuery` is fixed by `normalize`. -/
def stateNormalized (st : FilterState) : Prop :=
  st.activeFilter ≠ []
    ∧ normalizeStr st.activeFilter = st.activeFilter
    ∧ normalizeStr st.activeQuery = st.activeQuery

/-- Demonstration cards with the spec's scenario tags
(`systems`, `ocr systems`, `web`). -/
def demoCard0 : ProjectCard :=
  { dataTags := some "systems".toList, title := some "Alpha".toList,
    text := "Alpha systems project".toList }

/-- Second demonstration card. -/
def demoCard1 : ProjectCard :=
  { dataTags := some "ocr systems".toList, title := some "Beta".toList,
    text := "Beta OCR pipeline".toList }

/-- Third demonstration card. -/
def demoCard2 : ProjectCard :=
  { dataTags := some "web".toList, title := some "Gamma".toList,
    text := "Gamma web app lasagna".toList }

/-- The demonstration card list. -/
def demoCards : List ProjectCard := [demoCard0, demoCard1, demoCard2]

/-- The demonstration index built from the cards. -/
def demoIndex : List ProjectRecord := demoCards.map buildRecord

/-- A demonstration filter state. -/
def demoState : FilterState := { activeFilter := "systems".toList, activeQuery := [] }

/-- A demonstration record used by witnesses. -/
def demoRec : ProjectRecord :=
  { tags := ["web".toList], blob := "gamma web app lasagna".toList }

/-! ## Helper lemmas: substring tests -/

theorem map_id_of_mem {α : Type} {f : α → α} :
    ∀ l : List α, (∀ c ∈ l, f c = c) → l.map f = l
  | [], _ => rfl
  | a :: l, h => by
    simp only [List.map_cons]
    rw [h a (by simp), map_id_of_mem l fun c hc => h c (by simp [hc])]

theorem jsStartsWith_iff : ∀ s t : JSStr, jsStartsWith s t = true ↔ ∃ r, s = t ++ r
  | s, [] => by
    cases s <;> simp [jsStartsWith]
  | [], b :: bs => by
    simp [jsStartsWith]
  | a :: as, b :: bs => by
    simp only [jsStartsWith, Bool.and_eq_true, beq_iff_eq, jsStartsWith_iff as bs]
    constructor
    · rintro ⟨rfl, r, rfl⟩
      exact ⟨r, rfl⟩
    · rintro ⟨r, h⟩
      injection h with h1 h2
      exact ⟨h1, r, h2⟩

theorem jsIncludes_iff : ∀ s t : JSStr, jsIncludes s t = true ↔ ∃ a b, s = a ++ t ++ b
  | [], t => by
    simp only [jsIncludes, jsStartsWith_iff]
    constructor
    · rintro ⟨r, hr⟩
      exact ⟨[], r, hr⟩
    · rintro ⟨a, b, h⟩
      have h' := h.symm
      simp only [List.append_eq_nil] at h'
      exact ⟨[], by simp [h'.1.2]⟩
  | c :: rest, t => by
    simp only [jsIncludes, Bool.or_eq_true, jsStartsWith_iff, jsIncludes_iff rest t]
    constructor
    · rintro (⟨r, hr⟩ | ⟨a, b, h⟩)
      · exact ⟨[], r, by simpa using hr⟩
      · exact ⟨c :: a, b, by simp [h]⟩
    · rintro ⟨a, b, h⟩
      cases a with
      | nil => exact Or.inl ⟨b, by simpa using h⟩
      | cons a0 a1 =>
        injection h with h1 h2
        exact Or.inr ⟨a1, b, h2⟩

theorem contains_iff_mem (l : List JSStr) (a : JSStr) : l.contains a = true ↔ a ∈ l := by
  simp [List.contains, List.elem_iff]

/-! ## Helper lemmas: normalisation is idempotent -/

theorem toNat_ofNat_of_lt {n : Nat} (h : n < 55296) : (Char.ofNat n).toNat = n := by
  have hv : n.isValidChar := Or.inl h
  simp only [Char.ofNat, dif_pos hv, Char.ofNatAux, Char.toNat]
  rfl

theorem toLower_toLower (c : Char) : c.toLower.toLower = c.toLower := by
  have hdef : ∀ d : Char, d.toLower =
      if d.toNat ≥ 65 ∧ d.toNat ≤ 90 then Char.ofNat (d.toNat + 32) else d := fun _ => rfl
  by_cases h : c.toNat ≥ 65 ∧ c.toNat ≤ 90
  · have ht : (Char.ofNat (c.toNat + 32)).toNat = c.toNat + 32 :=
      toNat_ofNat_of_lt (by omega)
    rw [hdef c, if_pos h, hdef, if_neg (by rw [ht]; omega)]
  · rw [hdef c, if_neg h, hdef c, if_neg h]

theorem collapseWS_cons_not {c : Char} (h : isWS c = false) (s : JSStr) :
    collapseWS (c :: s) = c :: collapseWS s := by
  cases s with
  | nil => simp [collapseWS, h]
  | cons d rest => simp [collapseWS, h]

theorem collapseWS_ne_nil : ∀ {s : JSStr}, s ≠ [] → collapseWS s ≠ [] := by
  intro s
  induction s using collapseWS.induct with
  | case1 => intro h; exact absurd rfl h
  | case2 c h => intro _; simp [collapseWS, h]
  | case3 c h => intro _; simp [collapseWS, h]
  | case4 c d rest h1 h2 ih => intro _; simpa [collapseWS, h1, h2] using ih (by simp)
  | case5 c d rest h1 h2 ih => intro _; simp [collapseWS, h1, h2]
  | case6 c d rest h1 ih => intro _; simp [collapseWS, h1]

theorem mem_collapseWS {x : Char} : ∀ {s : JSStr}, x ∈ collapseWS s → x = ' ' ∨ x ∈ s := by
  intro s
  induction s using collapseWS.induct with
  | case1 => intro h; simp [collapseWS] at h
  | case2 c h => intro hx; simp [collapseWS, h] at hx; exact Or.inl hx
  | case3 c h => intro hx; simp [collapseWS, h] at hx; simp [hx]
  | case4 c d rest h1 h2 ih =>
    intro hx
    rw [show collapseWS (c :: d :: rest) = collapseWS (d :: rest) by simp [collapseWS, h1, h2]] at hx
    rcases ih hx with h | h
    · exact Or.inl h
    · exact Or.inr (by simp [h])
  | case5 c d rest h1 h2 ih =>
    intro hx
    rw [show collapseWS (c :: d :: rest) = ' ' :: collapseWS (d :: rest) by
      simp [collapseWS, h1, h2]] at hx
    rcases List.mem_cons.mp hx with h | h
    · exact Or.inl h
    · rcases ih h with h | h
      · exact Or.inl h
      · exact Or.inr (by simp [h])
  | case6 c d rest h1 ih =>
    intro hx
    rw [show collapseWS (c :: d :: rest) = c :: collapseWS (d :: rest) by
      simp [collapseWS, h1]] at hx
    rcases List.mem_cons.mp hx with h | h
    · exact Or.inr (by simp [h])
    · rcases ih h with h | h
      · exact Or.inl h
      · exact Or.inr (by simp [h])

theorem getLast?_collapseWS {x : Char} (hx : isWS x = false) :
    ∀ {s : JSStr}, s.getLast? = some x → (collapseWS s).getLast? = some x := by
  intro s
  induction s using collapseWS.induct with
  | case1 => intro h; simp at h
  | case2 c h =>
    intro hl
    simp [List.getLast?] at hl
    rw [hl] at h
    rw [hx] at h
    cases h
  | case3 c h =>
    intro hl
    simp [List.getLast?] at hl
    subst hl
    simp [collapseWS, hx, List.getLast?]
  | case4 c d rest h1 h2 ih =>
    intro hl
    rw [List.getLast?_cons_cons] at hl
    rw [show collapseWS (c :: d :: rest) = collapseWS (d :: rest) by simp [collapseWS, h1, h2]]
    exact ih hl
  | case5 c d rest h1 h2 ih =>
    intro hl
    rw [List.getLast?_cons_cons] at hl
    rw [show collapseWS (c :: d :: rest) = ' ' :: collapseWS (d :: rest) by
      simp [collapseWS, h1, h2]]
    have hne : collapseWS (d :: rest) ≠ [] := collapseWS_ne_nil (by simp)
    cases hc : collapseWS (d :: rest) with
    | nil => exact absurd hc hne
    | cons y ys =>
      rw [List.getLast?_cons_cons, ← hc]
      exact ih hl
  | case6 c d rest h1 ih =>
    intro hl
    rw [List.getLast?_cons_cons] at hl
    rw [show collapseWS (c :: d :: rest) = c :: collapseWS (d :: rest) by simp [collapseWS, h1]]
    have hne : collapseWS (d :: rest) ≠ [] := collapseWS_ne_nil (by simp)
    cases hc : collapseWS (d :: rest) with
    | nil => exact absurd hc hne
    | cons y ys =>
      rw [List.getLast?_cons_cons, ← hc]
      exact ih hl

theorem wsCanon_cons_not {a : Char} (h : isWS a = false) (s : JSStr) :
    wsCanon (a :: s) = wsCanon s := by
  cases s with
  | nil => simp [wsCanon, h]
  | cons x rest => simp [wsCanon, h]

theorem wsCanon_collapseWS : ∀ (s : JSStr), wsCanon (collapseWS s) = true := by
  intro s
  induction s using collapseWS.induct with
  | case1 => rfl
  | case2 c h => simp [collapseWS, h, wsCanon]
  | case3 c h => simp [collapseWS, h, wsCanon]
  | case4 c d rest h1 h2 ih => simpa [collapseWS, h1, h2] using ih
  | case5 c d rest h1 h2 ih =>
    rw [show collapseWS (c :: d :: rest) = ' ' :: collapseWS (d :: rest) by
      simp [collapseWS, h1, h2]]
    rw [collapseWS_cons_not (by simpa using h2)] at ih ⊢
    simp [wsCanon, h2] at ih ⊢
    exact ih
  | case6 c d rest h1 ih =>
    rw [show collapseWS (c :: d :: rest) = c :: collapseWS (d :: rest) by simp [collapseWS, h1]]
    rw [wsCanon_cons_not (by simpa using h1)]
    exact ih

theorem collapseWS_of_wsCanon : ∀ {s : JSStr}, wsCanon s = true → collapseWS s = s := by
  intro s
  induction s using collapseWS.induct with
  | case1 => intro _; rfl
  | case2 c h =>
    intro hc
    simp [wsCanon, h] at hc
    simp [collapseWS, h, hc]
  | case3 c h => intro _; simp [collapseWS, h]
  | case4 c d rest h1 h2 ih =>
    intro hc
    simp [wsCanon, h1, h2] at hc
  | case5 c d rest h1 h2 ih =>
    intro hc
    simp [wsCanon, h1, h2] at hc
    rw [show collapseWS (c :: d :: rest) = ' ' :: collapseWS (d :: rest) by
      simp [collapseWS, h1, h2]]
    rw [ih hc.2, hc.1]
  | case6 c d rest h1 ih =>
    intro hc
    rw [wsCanon_cons_not (by simpa using h1)] at hc
    rw [show collapseWS (c :: d :: rest) = c :: collapseWS (d :: rest) by simp [collapseWS, h1]]
    rw [ih hc]

theorem dropWhile_head_not {p : Char → Bool} :
    ∀ {l : JSStr} {x : Char} {r : JSStr}, l.dropWhile p = x :: r → p x = false
  | [], x, r => by intro h; simp at h
  | a :: l, x, r => by
    intro h
    rw [List.dropWhile_cons] at h
    by_cases hp : p a = true
    · rw [if_pos hp] at h
      exact dropWhile_head_not h
    · rw [if_neg hp] at h
      injection h with h1 _
      rw [← h1]
      exact Bool.eq_false_iff.mpr hp

theorem mem_jsTrim {c : Char} {s : JSStr} (h : c ∈ jsTrim s) : c ∈ s := by
  unfold jsTrim at h
  rw [List.mem_reverse] at h
  have h1 := (List.dropWhile_sublist _).subset h
  rw [List.mem_reverse] at h1
  exact (List.dropWhile_sublist _).subset h1

theorem jsTrim_eq_self {s : JSStr}
    (h1 : ∀ x, s.head? = some x → isWS x = false)
    (h2 : ∀ x, s.getLast? = some x → isWS x = false) : jsTrim s = s := by
  cases s with
  | nil => rfl
  | cons a l =>
    have ha : isWS a = false := h1 a rfl
    have h3 : List.dropWhile isWS (a :: l) = a :: l := by
      rw [List.dropWhile_cons, if_neg (by simp [ha])]
    cases hr : (a :: l).reverse with
    | nil => exact absurd hr (by simp)
    | cons y ys =>
      have hy : isWS y = false := by
        apply h2
        rw [← List.head?_reverse, hr]
        rfl
      have h4 : List.dropWhile isWS (y :: ys) = y :: ys := by
        rw [List.dropWhile_cons, if_neg (by simp [hy])]
      unfold jsTrim
      rw [h3, hr, h4, ← hr, List.reverse_reverse]

theorem jsTrim_prefix_dropWhile (s : JSStr) : jsTrim s <+: s.dropWhile isWS := by
  have h := (@List.reverse_prefix Char
    (List.dropWhile isWS (List.dropWhile isWS s).reverse)
    ((List.dropWhile isWS s).reverse)).mpr (List.dropWhile_suffix _)
  simpa [jsTrim] using h

theorem jsTrim_head_not {s : JSStr} {x : Char} {r : JSStr} (h : jsTrim s = x :: r) :
    isWS x = false := by
  obtain ⟨t, ht⟩ := jsTrim_prefix_dropWhile s
  rw [h] at ht
  have hd : s.dropWhile isWS = x :: (r ++ t) := by rw [← ht]; simp
  exact dropWhile_head_not hd

theorem jsTrim_getLast_not {s : JSStr} {x : Char} (h : (jsTrim s).getLast? = some x) :
    isWS x = false := by
  unfold jsTrim at h
  rw [List.getLast?_reverse] at h
  cases hd : List.dropWhile isWS (List.dropWhile isWS s).reverse with
  | nil => rw [hd] at h; simp at h
  | cons y ys =>
    rw [hd] at h
    have hyx : y = x := by simpa using h
    subst hyx
    exact dropWhile_head_not hd

theorem jsTrim_collapseWS_jsTrim (t : JSStr) :
    jsTrim (collapseWS (jsTrim t)) = collapseWS (jsTrim t) := by
  cases ht : jsTrim t with
  | nil => rfl
  | cons y ys =>
    have hy : isWS y = false := jsTrim_head_not ht
    apply jsTrim_eq_self
    · intro x hx
      rw [collapseWS_cons_not hy] at hx
      have : y = x := by simpa using hx
      subst this
      exact hy
    · intro x hx
      have hz := List.getLast?_eq_getLast (y :: ys) (by simp)
      have hznot : isWS ((y :: ys).getLast (by simp)) = false :=
        @jsTrim_getLast_not t _ (by rw [ht]; exact hz)
      have hgl := getLast?_collapseWS hznot hz
      rw [hgl] at hx
      injection hx with hx
      subst hx
      exact hznot

theorem toLower_mem_normalizeStr {c : Char} {s : JSStr} (h : c ∈ normalizeStr s) :
    Char.toLower c = c := by
  have h' : c ∈ collapseWS (jsTrim (jsToLower s)) := h
  rcases mem_collapseWS h' with h1 | h1
  · subst h1
    decide
  · have h2 := mem_jsTrim h1
    unfold jsToLower at h2
    rw [List.mem_map] at h2
    obtain ⟨y, _, rfl⟩ := h2
    exact toLower_toLower y

theorem jsToLower_normalizeStr (s : JSStr) : jsToLower (normalizeStr s) = normalizeStr s :=
  map_id_of_mem _ fun _ hc => toLower_mem_normalizeStr hc

theorem jsTrim_normalizeStr (s : JSStr) : jsTrim (normalizeStr s) = normalizeStr s :=
  jsTrim_collapseWS_jsTrim (jsToLower s)

theorem normalizeStr_idem (s : JSStr) : normalizeStr (normalizeStr s) = normalizeStr s := by
  have h0 : normalizeStr (normalizeStr s)
      = collapseWS (jsTrim (jsToLower (normalizeStr s))) := rfl
  rw [h0, jsToLower_normalizeStr, jsTrim_normalizeStr]
  exact collapseWS_of_wsCanon (wsCanon_collapseWS (jsTrim (jsToLower s)))

theorem normalize_eq (v : JSVal) : normalize v = normalizeStr (jsCoalesceToString v) := by
  cases v with
  | bool b => cases b <;> rfl
  | null => rfl
  | undef => rfl
  | str s => rfl
  | num n => rfl

theorem normalizeStr_normalize (v : JSVal) : normalizeStr (normalize v) = normalize v := by
  rw [normalize_eq]
  exact normalizeStr_idem _

theorem normalizeStr_allTok : normalizeStr allTok = allTok := by decide

/-! ## Helper lemmas: the form-encoding codec -/

theorem char_toNat_valid (c : Char) :
    c.toNat < 55296 ∨ (57343 < c.toNat ∧ c.toNat < 1114112) := c.valid

theorem utf8Bytes_lt256 {c : Char} {b : Nat} (h : b ∈ utf8Bytes c) : b < 256 := by
  have hv := char_toNat_valid c
  by_cases h1 : c.toNat < 128
  · simp [utf8Bytes, h1] at h
    omega
  · by_cases h2 : c.toNat < 2048
    · simp [utf8Bytes, h1, h2] at h
      rcases h with h | h <;> omega
    · by_cases h3 : c.toNat < 65536
      · simp [utf8Bytes, h1, h2, h3] at h
        rcases h with h | h | h <;> omega
      · simp [utf8Bytes, h1, h2, h3] at h
        rcases h with h | h | h | h <;> omega

theorem utf8Decode_ascii {b : Nat} (l : List Nat) (h1 : b < 128) :
    utf8DecodeSM 0 0 0 (b :: l) = Char.ofNat b :: utf8DecodeSM 0 0 0 l := by
  rw [utf8DecodeSM.eq_def]
  show (if b < 128 then _ else _) = _
  rw [if_pos h1]

theorem utf8Decode_lead2 {b : Nat} (l : List Nat) (h1 : ¬ b < 128) (h2 : 194 ≤ b ∧ b ≤ 223) :
    utf8DecodeSM 0 0 0 (b :: l) = utf8DecodeSM 1 (b - 192) 128 l := by
  rw [utf8DecodeSM.eq_def]
  show (if b < 128 then _ else _) = _
  rw [if_neg h1]
  show (if 194 ≤ b ∧ b ≤ 223 then _ else _) = _
  rw [if_pos h2]

theorem utf8Decode_lead3 {b : Nat} (l : List Nat) (h1 : ¬ b < 128)
    (h2 : ¬ (194 ≤ b ∧ b ≤ 223)) (h3 : 224 ≤ b ∧ b ≤ 239) :
    utf8DecodeSM 0 0 0 (b :: l) = utf8DecodeSM 2 (b - 224) 2048 l := by
  rw [utf8DecodeSM.eq_def]
  show (if b < 128 then _ else _) = _
  rw [if_neg h1]
  show (if 194 ≤ b ∧ b ≤ 223 then _ else _) = _
  rw [if_neg h2]
  show (if 224 ≤ b ∧ b ≤ 239 then _ else _) = _
  rw [if_pos h3]

theorem utf8Decode_lead4 {b : Nat} (l : List Nat) (h1 : ¬ b < 128)
    (h2 : ¬ (194 ≤ b ∧ b ≤ 223)) (h3 : ¬ (224 ≤ b ∧ b ≤ 239)) (h4 : 240 ≤ b ∧ b ≤ 244) :
    utf8DecodeSM 0 0 0 (b :: l) = utf8DecodeSM 3 (b - 240) 65536 l := by
  rw [utf8DecodeSM.eq_def]
  show (if b < 128 then _ else _) = _
  rw [if_neg h1]
  show (if 194 ≤ b ∧ b ≤ 223 then _ else _) = _
  rw [if_neg h2]
  show (if 224 ≤ b ∧ b ≤ 239 then _ else _) = _
  rw [if_neg h3]
  show (if 240 ≤ b ∧ b ≤ 244 then _ else _) = _
  rw [if_pos h4]

theorem utf8Decode_cont {k v m b : Nat} (l : List Nat) (hc : isCont b = true) :
    utf8DecodeSM (k + 2) v m (b :: l) = utf8DecodeSM (k + 1) (v * 64 + (b - 128)) m l := by
  rw [utf8DecodeSM.eq_def]
  show (if isCont b = true then _ else _) = _
  rw [if_pos hc]

theorem utf8Decode_last {v m b : Nat} (l : List Nat) (hc : isCont b = true)
    (hv : m ≤ v * 64 + (b - 128)
      ∧ ¬ (55296 ≤ v * 64 + (b - 128) ∧ v * 64 + (b - 128) ≤ 57343)
      ∧ v * 64 + (b - 128) ≤ 1114111) :
    utf8DecodeSM 1 v m (b :: l) = Char.ofNat (v * 64 + (b - 128)) :: utf8DecodeSM 0 0 0 l := by
  rw [utf8DecodeSM.eq_def]
  show (if isCont b = true then _ else _) = _
  rw [if_pos hc, if_pos hv]

theorem utf8DecodeBytes_encChar (c : Char) (l : List Nat) :
    utf8DecodeBytes (utf8Bytes c ++ l) = c :: utf8DecodeBytes l := by
  have hv := char_toNat_valid c
  unfold utf8DecodeBytes
  by_cases h1 : c.toNat < 128
  · rw [show utf8Bytes c = [c.toNat] from by simp [utf8Bytes, h1], List.cons_append,
      List.nil_append, utf8Decode_ascii l h1, Char.ofNat_toNat]
  · by_cases h2 : c.toNat < 2048
    · rw [show utf8Bytes c = [192 + c.toNat / 64, 128 + c.toNat % 64] from by
        simp [utf8Bytes, h1, h2]]
      simp only [List.cons_append, List.nil_append]
      rw [utf8Decode_lead2 _ (by omega) (by omega),
        utf8Decode_last l (by simp [isCont]; omega) (by refine ⟨by omega, by omega, by omega⟩)]
      rw [show (192 + c.toNat / 64 - 192) * 64 + (128 + c.toNat % 64 - 128) = c.toNat by omega,
        Char.ofNat_toNat]
    · by_cases h3 : c.toNat < 65536
      · rw [show utf8Bytes c
            = [224 + c.toNat / 4096, 128 + c.toNat / 64 % 64, 128 + c.toNat % 64] from by
          simp [utf8Bytes, h1, h2, h3]]
        simp only [List.cons_append, List.nil_append]
        rw [utf8Decode_lead3 _ (by omega) (by omega) (by omega),
          utf8Decode_cont _ (by simp [isCont]; omega),
          utf8Decode_last l (by simp [isCont]; omega)
            (by refine ⟨by omega, by omega, by omega⟩)]
        rw [show ((224 + c.toNat / 4096 - 224) * 64 + (128 + c.toNat / 64 % 64 - 128)) * 64
            + (128 + c.toNat % 64 - 128) = c.toNat by omega, Char.ofNat_toNat]
      · rw [show utf8Bytes c = [240 + c.toNat / 262144, 128 + c.toNat / 4096 % 64,
            128 + c.toNat / 64 % 64, 128 + c.toNat % 64] from by simp [utf8Bytes, h1, h2, h3]]
        simp only [List.cons_append, List.nil_append]
        rw [utf8Decode_lead4 _ (by omega) (by omega) (by omega) (by omega),
          utf8Decode_cont _ (by simp [isCont]; omega),
          utf8Decode_cont _ (by simp [isCont]; omega),
          utf8Decode_last l (by simp [isCont]; omega)
            (by refine ⟨by omega, by omega, by omega⟩)]
        rw [show (((240 + c.toNat / 262144 - 240) * 64 + (128 + c.toNat / 4096 % 64 - 128)) * 64
            + (128 + c.toNat / 64 % 64 - 128)) * 64 + (128 + c.toNat % 64 - 128) = c.toNat by
          omega, Char.ofNat_toNat]

theorem utf8DecodeBytes_flatMap_append :
    ∀ (s : JSStr) (l : List Nat),
      utf8DecodeBytes (s.flatMap utf8Bytes ++ l) = s ++ utf8DecodeBytes l
  | [], l => by simp
  | c :: s, l => by
    rw [List.flatMap_cons, List.append_assoc, utf8DecodeBytes_encChar,
      utf8DecodeBytes_flatMap_append s l, List.cons_append]

theorem hexDigitValue_hexUpperDigit : ∀ m, m < 16 → hexDigitValue (hexUpperDigit m) = some m := by
  decide

theorem hexUpperDigit_tame : ∀ m, m < 16 →
    hexUpperDigit m ≠ '&' ∧ hexUpperDigit m ≠ '=' ∧ hexUpperDigit m ≠ '?' := by
  decide

theorem percentDecodeBytes_triple {h l : Char} {hv lv : Nat} (rest : JSStr)
    (hh : hexDigitValue h = some hv) (hl : hexDigitValue l = some lv) :
    percentDecodeBytes ('%' :: h :: l :: rest) = (16 * hv + lv) :: percentDecodeBytes rest := by
  rw [percentDecodeBytes.eq_def]
  show (if ('%' : Char) = '+' then _ else _) = _
  rw [if_neg (by decide)]
  show (if ('%' : Char) = '%' then _ else _) = _
  rw [if_pos rfl]
  show (match hexDigitValue h, hexDigitValue l with
    | some hv, some lv => (16 * hv + lv) :: percentDecodeBytes rest
    | _, _ => 37 :: (utf8Bytes h ++ utf8Bytes l ++ percentDecodeBytes rest)) = _
  rw [hh, hl]

theorem percentDecodeBytes_plain {c : Char} (rest : JSStr) (h1 : c ≠ '+') (h2 : c ≠ '%') :
    percentDecodeBytes (c :: rest) = utf8Bytes c ++ percentDecodeBytes rest := by
  rw [percentDecodeBytes.eq_def]
  show (if c = '+' then _ else _) = _
  rw [if_neg h1]
  show (if c = '%' then _ else _) = _
  rw [if_neg h2]

theorem percentDecodeBytes_hexTriples :
    ∀ (bytes : List Nat), (∀ b ∈ bytes, b < 256) → ∀ l : JSStr,
      percentDecodeBytes
        ((bytes.flatMap fun b => ['%', hexUpperDigit (b / 16), hexUpperDigit (b % 16)]) ++ l)
      = bytes ++ percentDecodeBytes l
  | [], _, l => by simp
  | b :: bytes, hb, l => by
    have hblt : b < 256 := hb b (by simp)
    rw [List.flatMap_cons, List.append_assoc]
    simp only [List.cons_append, List.nil_append]
    rw [percentDecodeBytes_triple _ (hexDigitValue_hexUpperDigit (b / 16) (by omega))
      (hexDigitValue_hexUpperDigit (b % 16) (by omega))]
    rw [percentDecodeBytes_hexTriples bytes (fun x hx => hb x (by simp [hx])) l]
    rw [show 16 * (b / 16) + b % 16 = b by omega]

theorem percentDecodeBytes_encode :
    ∀ (s : JSStr) (l : JSStr),
      percentDecodeBytes (encodeComponent s ++ l)
        = s.flatMap utf8Bytes ++ percentDecodeBytes l
  | [], l => by simp [encodeComponent]
  | c :: s, l => by
    have hstep : encodeComponent (c :: s) =
        (if isFormSafe c then [c]
         else if c = ' ' then ['+']
         else (utf8Bytes c).flatMap fun b => ['%', hexUpperDigit (b / 16), hexUpperDigit (b % 16)])
        ++ encodeComponent s := List.flatMap_cons c s _
    rw [hstep]
    by_cases h1 : isFormSafe c
    · have hplus : c ≠ '+' := fun he => by rw [he] at h1; exact absurd h1 (by decide)
      have hpct : c ≠ '%' := fun he => by rw [he] at h1; exact absurd h1 (by decide)
      rw [if_pos h1]
      simp only [List.cons_append, List.nil_append]
      rw [percentDecodeBytes_plain _ hplus hpct, percentDecodeBytes_encode s l,
        List.flatMap_cons, List.append_assoc]
    · by_cases h2 : c = ' '
      · rw [if_neg h1, if_pos h2]
        simp only [List.cons_append, List.nil_append]
        rw [percentDecodeBytes.eq_def]
        show (if ('+' : Char) = '+' then _ else _) = _
        rw [if_pos rfl, percentDecodeBytes_encode s l, h2, List.flatMap_cons]
        rfl
      · rw [if_neg h1, if_neg h2, List.append_assoc,
          percentDecodeBytes_hexTriples (utf8Bytes c) (fun _ hb => utf8Bytes_lt256 hb) _,
          percentDecodeBytes_encode s l, List.flatMap_cons, List.append_assoc]

theorem decodeComponent_encodeComponent (s : JSStr) :
    decodeComponent (encodeComponent s) = s := by
  unfold decodeComponent
  have h := percentDecodeBytes_encode s []
  rw [List.append_nil] at h
  rw [h, show percentDecodeBytes [] = [] from rfl, List.append_nil]
  have h2 := utf8DecodeBytes_flatMap_append s []
  rw [List.append_nil] at h2
  rw [h2, show utf8DecodeBytes [] = [] from rfl, List.append_nil]

theorem mem_encodeComponent_tame {x : Char} {s : JSStr} (h : x ∈ encodeComponent s) :
    x ≠ '&' ∧ x ≠ '=' ∧ x ≠ '?' := by
  unfold encodeComponent at h
  rw [List.mem_flatMap] at h
  obtain ⟨c, _, hc⟩ := h
  by_cases h1 : isFormSafe c
  · rw [if_pos h1] at hc
    have hx : x = c := by simpa using hc
    subst hx
    refine ⟨?_, ?_, ?_⟩ <;> intro he <;> rw [he] at h1 <;> exact absurd h1 (by decide)
  · by_cases h2 : c = ' '
    · rw [if_neg h1, if_pos h2] at hc
      have hx : x = '+' := by simpa using hc
      subst hx
      refine ⟨by decide, by decide, by decide⟩
    · rw [if_neg h1, if_neg h2] at hc
      rw [List.mem_flatMap] at hc
      obtain ⟨b, hb, hx⟩ := hc
      have hb256 := utf8Bytes_lt256 hb
      simp only [List.mem_cons, List.not_mem_nil, or_false] at hx
      rcases hx with hx | hx | hx
      · subst hx
        refine ⟨by decide, by decide, by decide⟩
      · subst hx
        exact hexUpperDigit_tame (b / 16) (by omega)
      · subst hx
        exact hexUpperDigit_tame (b % 16) (by omega)

/-! ## Helper lemmas: splitting and joining -/

theorem splitOnChAux_cons (sep c : Char) (rest acc : JSStr) :
    splitOnChAux sep (c :: rest) acc =
      if c = sep then acc.reverse :: splitOnChAux sep rest []
      else splitOnChAux sep rest (c :: acc) := rfl

theorem splitOnChAux_no_sep {sep : Char} :
    ∀ (s acc : JSStr), sep ∉ s → splitOnChAux sep s acc = [acc.reverse ++ s]
  | [], acc, _ => by simp [splitOnChAux]
  | c :: rest, acc, h => by
    have hc : ¬ c = sep := fun he => h (by simp [he])
    rw [splitOnChAux_cons, if_neg hc,
      splitOnChAux_no_sep rest (c :: acc) fun hm => h (by simp [hm])]
    simp

theorem splitOnChAux_sep {sep : Char} :
    ∀ (a acc b : JSStr), sep ∉ a →
      splitOnChAux sep (a ++ sep :: b) acc = (acc.reverse ++ a) :: splitOnChAux sep b []
  | [], acc, b, _ => by
    simp [splitOnChAux_cons]
  | c :: a, acc, b, h => by
    have hc : ¬ c = sep := fun he => h (by simp [he])
    rw [List.cons_append, splitOnChAux_cons, if_neg hc,
      splitOnChAux_sep a (c :: acc) b fun hm => h (by simp [hm])]
    simp

theorem splitOnCh_no_sep {sep : Char} {s : JSStr} (h : sep ∉ s) : splitOnCh sep s = [s] := by
  unfold splitOnCh
  rw [splitOnChAux_no_sep s [] h]
  simp

theorem splitOnCh_sep {sep : Char} {a b : JSStr} (h : sep ∉ a) :
    splitOnCh sep (a ++ sep :: b) = a :: splitOnCh sep b := by
  unfold splitOnCh
  rw [splitOnChAux_sep a [] b h]
  simp

theorem splitOnChAux_head_leading {sep : Char} :
    ∀ (s acc : JSStr), (splitOnChAux sep s acc).headD [] <+: acc.reverse ++ s
  | [], acc => by simp [splitOnChAux]
  | c :: rest, acc => by
    rw [splitOnChAux_cons]
    by_cases hc : c = sep
    · rw [if_pos hc]
      exact List.prefix_append _ _
    · rw [if_neg hc]
      have h := @splitOnChAux_head_leading sep rest (c :: acc)
      simpa [List.append_assoc] using h

theorem readHashParams_anchor_leading (hash : JSStr) : (readHashParams hash).1 <+: hash := by
  show (splitOnCh '?' hash).headD [] <+: hash
  have h := @splitOnChAux_head_leading '?' hash []
  simpa [splitOnCh] using h

theorem splitFirstEq_cons (c : Char) (rest : JSStr) :
    splitFirstEq (c :: rest) =
      if c = '=' then ([], rest)
      else ((splitFirstEq rest).1.cons c, (splitFirstEq rest).2) := rfl

theorem splitFirstEq_append : ∀ {k : JSStr}, '=' ∉ k → ∀ v : JSStr,
    splitFirstEq (k ++ '=' :: v) = (k, v)
  | [], _, v => by simp [splitFirstEq_cons]
  | c :: k, h, v => by
    have hc : ¬ c = '=' := fun he => h (by simp [he])
    rw [List.cons_append, splitFirstEq_cons, if_neg hc,
      splitFirstEq_append (fun hm => h (by simp [hm])) v]

theorem mem_joinCh {x sep : Char} :
    ∀ {parts : List JSStr}, x ∈ joinCh sep parts → x = sep ∨ ∃ p ∈ parts, x ∈ p
  | [], h => by simp [joinCh] at h
  | [p], h => by
    rw [show joinCh sep [p] = p from rfl] at h
    exact Or.inr ⟨p, by simp, h⟩
  | p :: q :: rest, h => by
    rw [show joinCh sep (p :: q :: rest) = p ++ sep :: joinCh sep (q :: rest) from rfl] at h
    rcases List.mem_append.mp h with h | h
    · exact Or.inr ⟨p, by simp, h⟩
    · rcases List.mem_cons.mp h with h | h
      · exact Or.inl h
      · rcases mem_joinCh h with h | ⟨p2, hp2, hx⟩
        · exact Or.inl h
        · exact Or.inr ⟨p2, by simp [hp2], hx⟩

/-! ## Helper lemmas: parsing written parameters back -/

theorem encPair_tame {x : Char} {k v : JSStr}
    (h : x ∈ encodeComponent k ++ '=' :: encodeComponent v) : x ≠ '&' ∧ x ≠ '?' := by
  rcases List.mem_append.mp h with h | h
  · have ht := mem_encodeComponent_tame h
    exact ⟨ht.1, ht.2.2⟩
  · rcases List.mem_cons.mp h with h | h
    · subst h
      exact ⟨by decide, by decide⟩
    · have ht := mem_encodeComponent_tame h
      exact ⟨ht.1, ht.2.2⟩

theorem parseParams_encPair (k v : JSStr) :
    parseParams (encodeComponent k ++ '=' :: encodeComponent v) = [(k, v)] := by
  have hamp : ('&' : Char) ∉ encodeComponent k ++ '=' :: encodeComponent v :=
    fun hm => (encPair_tame hm).1 rfl
  have hne : encodeComponent k ++ '=' :: encodeComponent v ≠ [] := by simp
  have heq : ('=' : Char) ∉ encodeComponent k :=
    fun hm => (mem_encodeComponent_tame hm).2.1 rfl
  unfold parseParams
  rw [splitOnCh_no_sep hamp]
  simp only [List.filterMap_cons, List.filterMap_nil, hne, ite_false,
    splitFirstEq_append heq (encodeComponent v), decodeComponent_encodeComponent]

theorem parseParams_encPair_two (k1 v1 k2 v2 : JSStr) :
    parseParams ((encodeComponent k1 ++ '=' :: encodeComponent v1) ++ '&'
      :: (encodeComponent k2 ++ '=' :: encodeComponent v2)) = [(k1, v1), (k2, v2)] := by
  have hamp1 : ('&' : Char) ∉ encodeComponent k1 ++ '=' :: encodeComponent v1 :=
    fun hm => (encPair_tame hm).1 rfl
  have hamp2 : ('&' : Char) ∉ encodeComponent k2 ++ '=' :: encodeComponent v2 :=
    fun hm => (encPair_tame hm).1 rfl
  have hne1 : encodeComponent k1 ++ '=' :: encodeComponent v1 ≠ [] := by simp
  have hne2 : encodeComponent k2 ++ '=' :: encodeComponent v2 ≠ [] := by simp
  have heq1 : ('=' : Char) ∉ encodeComponent k1 :=
    fun hm => (mem_encodeComponent_tame hm).2.1 rfl
  have heq2 : ('=' : Char) ∉ encodeComponent k2 :=
    fun hm => (mem_encodeComponent_tame hm).2.1 rfl
  unfold parseParams
  rw [splitOnCh_sep hamp1, splitOnCh_no_sep hamp2]
  simp only [List.filterMap_cons, List.filterMap_nil, hne1, hne2, ite_false,
    splitFirstEq_append heq1 (encodeComponent v1), splitFirstEq_append heq2 (encodeComponent v2),
    decodeComponent_encodeComponent]

theorem paramsGet_cons_self (ps : Params) (k v : JSStr) :
    paramsGet ((k, v) :: ps) k = some v := by
  simp [paramsGet, List.find?]

theorem paramsGet_cons_ne (ps : Params) {k1 k2 : JSStr} (v : JSStr) (h : (k1 == k2) = false) :
    paramsGet ((k1, v) :: ps) k2 = paramsGet ps k2 := by
  simp [paramsGet, List.find?, h]

theorem parseParams_nil : parseParams [] = [] := rfl

theorem readHashParams_no_query {a : JSStr} (h : ('?' : Char) ∉ a) :
    readHashParams a = (a, parseParams []) := by
  unfold readHashParams
  rw [splitOnCh_no_sep h]
  rfl

theorem readHashParams_proj_query {q : JSStr} (hq : ('?' : Char) ∉ q) :
    readHashParams (projTok ++ '?' :: q) = (projTok, parseParams q) := by
  unfold readHashParams
  rw [splitOnCh_sep (by decide), splitOnCh_no_sep hq]
  rfl

theorem buildParams_stateKV (st : FilterState)
    (hf1 : st.activeFilter ≠ []) (hf2 : jsTrim st.activeFilter = st.activeFilter)
    (hq : jsTrim st.activeQuery = st.activeQuery) :
    buildParams (stateKV st) =
      (if st.activeFilter = allTok then [] else [(tagKey, st.activeFilter)])
      ++ (if st.activeQuery = [] then [] else [(queryKey, st.activeQuery)]) := by
  have hkk : ¬ (tagKey = queryKey) := by decide
  have htn : jsTrim ([] : JSStr) = [] := rfl
  unfold buildParams stateKV
  by_cases hall : st.activeFilter = allTok
  · by_cases hqe : st.activeQuery = []
    · simp [hall, hqe, jsValToString, htn]
    · simp [hall, hqe, jsValToString, hq, htn, paramsSet]
  · by_cases hqe : st.activeQuery = []
    · simp [hall, hqe, jsValToString, hf2, hf1, htn, paramsSet]
    · simp [hall, hqe, jsValToString, hf2, hf1, hq, paramsSet, hkk]

/-! ## Claim C2 -/

/-- C2: for every filter state (tag nonempty and trim-stable, query
trim-stable, which holds of every state the program builds),
`writeHashParams` of that state followed by `readHashParams` yields the
same `(tag, query)` pair: the anchor comes back as `#projects`, reading
`tag` with default `'all'` and `query` with default `''` restores the
state, fields whose written value is empty (`tag` when the filter is the
`'all'` sentinel, `query` when empty) are omitted from the query string,
and when nothing is written the fragment is exactly the anchor. -/
theorem c2_hash_roundtrip (st : FilterState)
    (hf1 : st.activeFilter ≠ [])
    (hf2 : jsTrim st.activeFilter = st.activeFilter)
    (hq : jsTrim st.activeQuery = st.activeQuery) :
    (readHashParams (writeHashNext projTok (stateKV st))).1 = projTok
    ∧ (paramsGet (readHashParams (writeHashNext projTok (stateKV st))).2 tagKey).getD allTok
        = st.activeFilter
    ∧ (paramsGet (readHashParams (writeHashNext projTok (stateKV st))).2 queryKey).getD []
        = st.activeQuery
    ∧ (st.activeFilter = allTok →
        paramsGet (readHashParams (writeHashNext projTok (stateKV st))).2 tagKey = none)
    ∧ (st.activeQuery = [] →
        paramsGet (readHashParams (writeHashNext projTok (stateKV st))).2 queryKey = none)
    ∧ (st.activeFilter = allTok → st.activeQuery = [] →
        writeHashNext projTok (stateKV st) = projTok) := by
  have hbp := buildParams_stateKV st hf1 hf2 hq
  by_cases hall : st.activeFilter = allTok
  · by_cases hqe : st.activeQuery = []
    · rw [if_pos hall, if_pos hqe] at hbp
      simp only [List.append_nil] at hbp
      have hw : writeHashNext projTok (stateKV st) = projTok := by
        unfold writeHashNext
        rw [hbp]
        rfl
      rw [hw, readHashParams_no_query (by decide), parseParams_nil]
      exact ⟨rfl, by rw [hall]; rfl, by rw [hqe]; rfl, fun _ => rfl, fun _ => rfl,
        fun _ _ => rfl⟩
    · rw [if_pos hall, if_neg hqe] at hbp
      simp only [List.nil_append] at hbp
      have hqtame : ('?' : Char)
          ∉ encodeComponent queryKey ++ '=' :: encodeComponent st.activeQuery :=
        fun hm => (encPair_tame hm).2 rfl
      have hw : writeHashNext projTok (stateKV st)
          = projTok ++ '?' :: (encodeComponent queryKey ++ '=' :: encodeComponent st.activeQuery) := by
        unfold writeHashNext
        rw [hbp, show paramsToString [(queryKey, st.activeQuery)]
          = encodeComponent queryKey ++ '=' :: encodeComponent st.activeQuery from rfl,
          if_neg (by simp)]
      rw [hw, readHashParams_proj_query hqtame, parseParams_encPair]
      refine ⟨rfl, ?_, ?_, fun _ => ?_, fun h => absurd h hqe, fun _ h => absurd h hqe⟩
      · rw [show (projTok, [(queryKey, st.activeQuery)]).2 = [(queryKey, st.activeQuery)] from
          rfl, paramsGet_cons_ne _ _ (by decide), show paramsGet [] tagKey = none from rfl,
          hall]
        rfl
      · rw [show (projTok, [(queryKey, st.activeQuery)]).2 = [(queryKey, st.activeQuery)] from
          rfl, paramsGet_cons_self]
        rfl
      · rw [show (projTok, [(queryKey, st.activeQuery)]).2 = [(queryKey, st.activeQuery)] from
          rfl, paramsGet_cons_ne _ _ (by decide)]
        rfl
  · by_cases hqe : st.activeQuery = []
    · rw [if_neg hall, if_pos hqe] at hbp
      simp only [List.append_nil] at hbp
      have httame : ('?' : Char)
          ∉ encodeComponent tagKey ++ '=' :: encodeComponent st.activeFilter :=
        fun hm => (encPair_tame hm).2 rfl
      have hw : writeHashNext projTok (stateKV st)
          = projTok ++ '?' :: (encodeComponent tagKey ++ '=' :: encodeComponent st.activeFilter) := by
        unfold writeHashNext
        rw [hbp, show paramsToString [(tagKey, st.activeFilter)]
          = encodeComponent tagKey ++ '=' :: encodeComponent st.activeFilter from rfl,
          if_neg (by simp)]
      rw [hw, readHashParams_proj_query httame, parseParams_encPair]
      refine ⟨rfl, ?_, ?_, fun h => absurd h hall, fun _ => ?_, fun h => absurd h hall⟩
      · rw [show (projTok, [(tagKey, st.activeFilter)]).2 = [(tagKey, st.activeFilter)] from
          rfl, paramsGet_cons_self]
        rfl
      · rw [show (projTok, [(tagKey, st.activeFilter)]).2 = [(tagKey, st.activeFilter)] from
          rfl, paramsGet_cons_ne _ _ (by decide), show paramsGet [] queryKey = none from rfl,
          hqe]
        rfl
      · rw [show (projTok, [(tagKey, st.activeFilter)]).2 = [(tagKey, st.activeFilter)] from
          rfl, paramsGet_cons_ne _ _ (by decide)]
        rfl
    · rw [if_neg hall, if_neg hqe] at hbp
      simp only [List.singleton_append] at hbp
      have hqtame : ('?' : Char)
          ∉ (encodeComponent tagKey ++ '=' :: encodeComponent st.activeFilter) ++ '&'
            :: (encodeComponent queryKey ++ '=' :: encodeComponent st.activeQuery) := by
        intro hm
        rcases List.mem_append.mp hm with h | h
        · exact (encPair_tame h).2 rfl
        · rcases List.mem_cons.mp h with h | h
          · exact absurd h.symm (by decide)
          · exact (encPair_tame h).2 rfl
      have hw : writeHashNext projTok (stateKV st)
          = projTok ++ '?'
            :: ((encodeComponent tagKey ++ '=' :: encodeComponent st.activeFilter) ++ '&'
              :: (encodeComponent queryKey ++ '=' :: encodeComponent st.activeQuery)) := by
        unfold writeHashNext
        rw [hbp, show paramsToString [(tagKey, st.activeFilter), (queryKey, st.activeQuery)]
          = (encodeComponent tagKey ++ '=' :: encodeComponent st.activeFilter) ++ '&'
            :: (encodeComponent queryKey ++ '=' :: encodeComponent st.activeQuery) from rfl,
          if_neg (by simp)]
      rw [hw, readHashParams_proj_query hqtame, parseParams_encPair_two]
      refine ⟨rfl, ?_, ?_, fun h => absurd h hall, fun h => absurd h hqe,
        fun h => absurd h hall⟩
      · rw [show (projTok, [(tagKey, st.activeFilter), (queryKey, st.activeQuery)]).2
          = [(tagKey, st.activeFilter), (queryKey, st.activeQuery)] from rfl,
          paramsGet_cons_self]
        rfl
      · rw [show (projTok, [(tagKey, st.activeFilter), (queryKey, st.activeQuery)]).2
          = [(tagKey, st.activeFilter), (queryKey, st.activeQuery)] from rfl,
          paramsGet_cons_ne _ _ (by decide), paramsGet_cons_self]
        rfl

/-- Witness for C2 at the concrete state `("web", "lasagna rocks")`. -/
theorem c2_hash_roundtrip_witness :
    (readHashParams (writeHashNext projTok (stateKV
        { activeFilter := "web".toList, activeQuery := "lasagna rocks".toList }))).1 = projTok
    ∧ (paramsGet (readHashParams (writeHashNext projTok (stateKV
        { activeFilter := "web".toList, activeQuery := "lasagna rocks".toList }))).2
        tagKey).getD allTok = "web".toList
    ∧ (paramsGet (readHashParams (writeHashNext projTok (stateKV
        { activeFilter := "web".toList, activeQuery := "lasagna rocks".toList }))).2
        queryKey).getD [] = "lasagna rocks".toList := by
  have h := c2_hash_roundtrip
    { activeFilter := "web".toList, activeQuery := "lasagna rocks".toList }
    (by decide) (by decide) (by decide)
  exact ⟨h.1, h.2.1, h.2.2.1⟩

/-! ## Helper lemmas: the visibility predicates -/

theorem matchesFilter_iff (st : FilterState) (r : ProjectRecord) :
    matchesFilter st r = true ↔ (st.activeFilter = allTok ∨ st.activeFilter ∈ r.tags) := by
  unfold matchesFilter
  by_cases hall : st.activeFilter = allTok
  · simp [hall]
  · simp [hall, contains_iff_mem]

theorem matchesSearch_iff (st : FilterState) (r : ProjectRecord) :
    matchesSearch st r = true
      ↔ (st.activeQuery = [] ∨ ∃ a b, r.blob = a ++ st.activeQuery ++ b) := by
  unfold matchesSearch
  by_cases hqe : st.activeQuery = []
  · simp [hqe]
  · simp [hqe, jsIncludes_iff]

theorem applyFilters_visible_getElem (st : FilterState) (index : List ProjectRecord)
    (i : Nat) (r : ProjectRecord) (h : index[i]? = some r) :
    (applyFilters st index).visible[i]? = some (matchesFilter st r && matchesSearch st r) := by
  show (index.map fun item => matchesFilter st item && matchesSearch st item)[i]? = _
  rw [List.getElem?_map, h]
  rfl

/-! ## Claim C1 -/

/-- C1: after any call to `applyFilters`, the record at any index
position is visible iff (`activeFilter` is `'all'` or a member of the
record's tag set) and (`activeQuery` is empty or a contiguous substring
of the record's search blob); and the empty-state indicator is shown iff
the number of visible records is zero. -/
theorem c1_applyFilters_visibility (st : FilterState) (index : List ProjectRecord)
    (i : Nat) (r : ProjectRecord) (h : index[i]? = some r) :
    ((applyFilters st index).visible[i]? = some true
      ↔ ((st.activeFilter = allTok ∨ st.activeFilter ∈ r.tags)
        ∧ (st.activeQuery = [] ∨ ∃ a b, r.blob = a ++ st.activeQuery ++ b)))
    ∧ ((applyFilters st index).noResultsShown = true
      ↔ (applyFilters st index).visibleCount = 0) := by
  constructor
  · rw [applyFilters_visible_getElem st index i r h]
    rw [show ((some (matchesFilter st r && matchesSearch st r)
      = some true) ↔ (matchesFilter st r && matchesSearch st r) = true) from by simp]
    rw [Bool.and_eq_true]
    rw [matchesFilter_iff, matchesSearch_iff]
  · show (((index.map fun item => matchesFilter st item && matchesSearch st item).count true
      == 0) = true) ↔ _
    exact beq_iff_eq

/-- Witness for C1 at a concrete state, record and index. -/
theorem c1_witness :
    (([demoRec][0]? = some demoRec))
    ∧ (((applyFilters demoState [demoRec]).visible[0]? = some true
        ↔ ((demoState.activeFilter = allTok ∨ demoState.activeFilter ∈ demoRec.tags)
          ∧ (demoState.activeQuery = []
            ∨ ∃ a b, demoRec.blob = a ++ demoState.activeQuery ++ b)))
      ∧ ((applyFilters demoState [demoRec]).noResultsShown = true
        ↔ (applyFilters demoState [demoRec]).visibleCount = 0)) :=
  ⟨by decide, c1_applyFilters_visibility demoState [demoRec] 0 demoRec (by decide)⟩

/-! ## Claim C5 -/

/-- C5: for every tag token (a normalised nonempty token other than the
`'all'` sentinel — the spec's glossary defines tag tokens as normalised
keywords and treats `'all'` as a sentinel, not a tag) that is not in any
record's tag set, `setFilter` with that token yields zero visible
records and shows the empty-state indicator: unknown tags are not an
error. -/
theorem c5_unknown_tag (st : FilterState) (index : List ProjectRecord) (t : JSStr)
    (hnorm : normalizeStr t = t) (hne : t ≠ []) (hall : t ≠ allTok)
    (habsent : ∀ r ∈ index, t ∉ r.tags) :
    (applyFilters (setFilter st (JSVal.str t)) index).visibleCount = 0
    ∧ (applyFilters (setFilter st (JSVal.str t)) index).noResultsShown = true := by
  have haf : (setFilter st (JSVal.str t)).activeFilter = t := by
    show (if normalize (JSVal.str t) = [] then allTok else normalize (JSVal.str t)) = t
    rw [show normalize (JSVal.str t) = normalizeStr t from rfl, hnorm, if_neg hne]
  have hcount : ((index.map fun item => matchesFilter (setFilter st (JSVal.str t)) item
      && matchesSearch (setFilter st (JSVal.str t)) item).count true) = 0 := by
    rw [List.count_eq_zero]
    intro hmem
    rw [List.mem_map] at hmem
    obtain ⟨r, hr, hf⟩ := hmem
    rw [Bool.and_eq_true, matchesFilter_iff, haf] at hf
    rcases hf.1 with h | h
    · exact hall h
    · exact habsent r hr h
  refine ⟨hcount, ?_⟩
  show ((index.map fun item => matchesFilter (setFilter st (JSVal.str t)) item
      && matchesSearch (setFilter st (JSVal.str t)) item).count true == 0) = true
  rw [hcount]
  rfl

/-- Witness for C5 with the unknown tag `'zzz'` over the demonstration
index. -/
theorem c5_witness :
    (applyFilters (setFilter demoState (JSVal.str "zzz".toList)) demoIndex).visibleCount = 0
    ∧ (applyFilters (setFilter demoState (JSVal.str "zzz".toList)) demoIndex).noResultsShown
      = true :=
  c5_unknown_tag demoState demoIndex "zzz".toList (by decide) (by decide) (by decide) (by decide)

/-! ## Claim C6 -/

/-- C6: after any prior `setFilter` call with any tag, `setFilter('all')`
makes visible exactly the records matched by the current query alone:
the record at any index position is visible iff the query is empty or a
substring of its blob (so full visibility when the query is empty). -/
theorem c6_setFilter_all (st0 : FilterState) (tg : JSVal) (index : List ProjectRecord)
    (i : Nat) (r : ProjectRecord) (h : index[i]? = some r) :
    ((applyFilters (setFilter (setFilter st0 tg) (JSVal.str allTok)) index).visible[i]?
      = some true
      ↔ (st0.activeQuery = [] ∨ ∃ a b, r.blob = a ++ st0.activeQuery ++ b))
    ∧ (st0.activeQuery = [] →
      (applyFilters (setFilter (setFilter st0 tg) (JSVal.str allTok)) index).visible[i]?
        = some true) := by
  have hst : setFilter (setFilter st0 tg) (JSVal.str allTok)
      = { activeFilter := allTok, activeQuery := st0.activeQuery } := by
    show (⟨(if normalize (JSVal.str allTok) = [] then allTok
      else normalize (JSVal.str allTok)), st0.activeQuery⟩ : FilterState)
      = ⟨allTok, st0.activeQuery⟩
    rw [show (if normalize (JSVal.str allTok) = [] then allTok
      else normalize (JSVal.str allTok)) = allTok from by decide]
  have hiff : (applyFilters (setFilter (setFilter st0 tg) (JSVal.str allTok)) index).visible[i]?
      = some true ↔ (st0.activeQuery = [] ∨ ∃ a b, r.blob = a ++ st0.activeQuery ++ b) := by
    rw [hst, applyFilters_visible_getElem _ index i r h]
    rw [show ((some (matchesFilter { activeFilter := allTok, activeQuery := st0.activeQuery } r
      && matchesSearch { activeFilter := allTok, activeQuery := st0.activeQuery } r)
      = some true)
      ↔ (matchesFilter { activeFilter := allTok, activeQuery := st0.activeQuery } r
        && matchesSearch { activeFilter := allTok, activeQuery := st0.activeQuery } r) = true)
      from by simp]
    rw [Bool.and_eq_true, matchesFilter_iff, matchesSearch_iff]
    simp
  exact ⟨hiff, fun hq => hiff.mpr (Or.inl hq)⟩

/-- Witness for C6: a prior `setFilter('web')` then `setFilter('all')`
over the demonstration index. -/
theorem c6_witness :
    ((applyFilters (setFilter (setFilter demoState (JSVal.str "web".toList))
        (JSVal.str allTok)) demoIndex).visible[0]? = some true
      ↔ (demoState.activeQuery = []
        ∨ ∃ a b, (buildRecord demoCard0).blob = a ++ demoState.activeQuery ++ b))
    ∧ (demoState.activeQuery = [] →
      (applyFilters (setFilter (setFilter demoState (JSVal.str "web".toList))
        (JSVal.str allTok)) demoIndex).visible[0]? = some true) :=
  c6_setFilter_all demoState (JSVal.str "web".toList) demoIndex 0
    (buildRecord demoCard0) (by decide)

/-! ## Claim C7 -/

/-- C7: for every query string `q` and every starting state,
`setQuery(q)` and `setQuery(normalize(q))` yield identical visible sets,
because `normalize` (lowercase, trim, collapse whitespace) is idempotent
with respect to the stored query. -/
theorem c7_setQuery_normalize_idem (st : FilterState) (q : JSStr)
    (index : List ProjectRecord) :
    (applyFilters (setQuery st (JSVal.str q)) index).visible
      = (applyFilters (setQuery st (JSVal.str (normalizeStr q))) index).visible := by
  have hst : setQuery st (JSVal.str q) = setQuery st (JSVal.str (normalizeStr q)) := by
    unfold setQuery
    rw [show normalize (JSVal.str q) = normalizeStr q from rfl,
      show normalize (JSVal.str (normalizeStr q)) = normalizeStr (normalizeStr q) from rfl,
      normalizeStr_idem]
  rw [hst]

/-- Witness for C7 at a concrete un-normalised query. -/
theorem c7_witness :
    (applyFilters (setQuery demoState (JSVal.str "  LaSaGnA ".toList)) demoIndex).visible
      = (applyFilters (setQuery demoState (JSVal.str (normalizeStr "  LaSaGnA ".toList)))
          demoIndex).visible :=
  c7_setQuery_normalize_idem demoState "  LaSaGnA ".toList demoIndex

/-! ## Claim C8 -/

/-- C8: `setFilter` and `setQuery` are total and never fail: every input
value — including `null`, `undefined`, the empty string and non-string
values — is coerced to its string form and normalised rather than
rejected; an input that normalises to empty makes the filter `'all'`,
`null`/`undefined` queries become the empty string, and the stored
filter is never empty. -/
theorem c8_defensive_normalization :
    (∀ (st : FilterState) (v : JSVal),
      setFilter st v = { st with activeFilter :=
        (if normalizeStr (jsCoalesceToString v) = [] then allTok
         else normalizeStr (jsCoalesceToString v)) })
    ∧ (∀ (st : FilterState) (v : JSVal),
      setQuery st v = { st with activeQuery := normalizeStr (jsCoalesceToString v) })
    ∧ (∀ st : FilterState, (setFilter st JSVal.null).activeFilter = allTok
        ∧ (setFilter st JSVal.undef).activeFilter = allTok
        ∧ (setFilter st (JSVal.str [])).activeFilter = allTok)
    ∧ (∀ st : FilterState, (setQuery st JSVal.null).activeQuery = []
        ∧ (setQuery st JSVal.undef).activeQuery = [])
    ∧ (∀ (st : FilterState) (v : JSVal), (setFilter st v).activeFilter ≠ []) := by
  refine ⟨?_, ?_, ?_, ?_, ?_⟩
  · intro st v
    unfold setFilter
    rw [normalize_eq]
  · intro st v
    unfold setQuery
    rw [normalize_eq]
  · intro st
    exact ⟨rfl, rfl, rfl⟩
  · intro st
    exact ⟨rfl, rfl⟩
  · intro st v
    show (if (normalize v = []) then allTok else normalize v) ≠ []
    by_cases h : normalize v = []
    · rw [if_pos h]
      decide
    · rw [if_neg h]
      exact h

/-- Witness for C8 at concrete inputs: a `null` filter becomes `'all'`
and a boolean query is coerced to its string form. -/
theorem c8_witness :
    (setFilter defaultState JSVal.null).activeFilter = allTok
    ∧ setQuery defaultState (JSVal.bool true)
      = { defaultState with activeQuery := normalizeStr (jsCoalesceToString (JSVal.bool true)) } :=
  ⟨(c8_defensive_normalization.2.2.1 defaultState).1,
   c8_defensive_normalization.2.1 defaultState (JSVal.bool true)⟩

/-! ## Claim C3 -/

theorem jsStartsWith_of_leading {t s : JSStr} (h : t <+: s) : jsStartsWith s t = true := by
  obtain ⟨r, hr⟩ := h
  exact (jsStartsWith_iff s t).mpr ⟨r, hr.symm⟩

theorem setFilter_normalize_arg (st : FilterState) (t : JSStr) :
    setFilter st (JSVal.str (if normalizeStr t = [] then allTok else normalizeStr t))
      = setFilter st (JSVal.str t) := by
  by_cases h : normalizeStr t = []
  · rw [if_pos h]
    unfold setFilter
    rw [show normalize (JSVal.str allTok) = normalizeStr allTok from rfl, normalizeStr_allTok,
      show normalize (JSVal.str t) = normalizeStr t from rfl, h]
    simp
  · rw [if_neg h]
    unfold setFilter
    rw [show normalize (JSVal.str (normalizeStr t)) = normalizeStr (normalizeStr t) from rfl,
      normalizeStr_idem, show normalize (JSVal.str t) = normalizeStr t from rfl]

/-- C3: initialising from the fragment
`#projects?tag=web&query=lasagna` yields the same visible set over every
index as starting from the default state and calling `setFilter('web')`
then `setQuery('lasagna')`; in general, whenever the fragment passes the
projects-anchor check, initialisation yields the same visible set as the
manual `setFilter`/`setQuery` calls with the tag and query read from the
fragment. -/
theorem c3_deeplink_equiv :
    (∀ index : List ProjectRecord,
      (applyFilters (initStateFromHash "#projects?tag=web&query=lasagna".toList) index).visible
        = (applyFilters (setQuery (setFilter defaultState (JSVal.str "web".toList))
            (JSVal.str "lasagna".toList)) index).visible)
    ∧ (∀ (hash : JSStr) (index : List ProjectRecord), atProjectsHash hash = true →
      (applyFilters (initStateFromHash hash) index).visible
        = (applyFilters (setQuery (setFilter defaultState (JSVal.str (tagParamOf hash)))
            (JSVal.str (queryParamOf hash))) index).visible) := by
  have hgen : ∀ hash : JSStr, atProjectsHash hash = true →
      initStateFromHash hash
        = setQuery (setFilter defaultState (JSVal.str (tagParamOf hash)))
            (JSVal.str (queryParamOf hash)) := by
    intro hash hat
    unfold initStateFromHash
    rw [if_pos hat]
    show setQuery (setFilter defaultState (JSVal.str
        (if normalizeStr (tagParamOf hash) = [] then allTok
         else normalizeStr (tagParamOf hash))))
        (JSVal.str (queryParamOf hash)) = _
    rw [setFilter_normalize_arg]
  constructor
  · intro index
    rw [hgen _ (by decide),
      show tagParamOf "#projects?tag=web&query=lasagna".toList = "web".toList from by decide,
      show queryParamOf "#projects?tag=web&query=lasagna".toList = "lasagna".toList from by
        decide]
  · intro hash index hat
    rw [hgen hash hat]

/-- Witness for C3 at the concrete fragment and the demonstration
index. -/
theorem c3_witness :
    (applyFilters (initStateFromHash "#projects?tag=web&query=lasagna".toList) demoIndex).visible
      = (applyFilters (setQuery (setFilter defaultState
          (JSVal.str (tagParamOf "#projects?tag=web&query=lasagna".toList)))
          (JSVal.str (queryParamOf "#projects?tag=web&query=lasagna".toList)))
          demoIndex).visible :=
  c3_deeplink_equiv.2 "#projects?tag=web&query=lasagna".toList demoIndex (by decide)

/-! ## Claim C4 -/

theorem applyFiltersUrl_guard (b : Browser) :
    (atProjectsHash b.hash || decide ((readHashParams b.hash).1 = [])) = true
      ↔ (jsStartsWith b.hash projTok = true ∨ (readHashParams b.hash).1 = []) := by
  unfold atProjectsHash
  simp only [Bool.or_eq_true, decide_eq_true_eq]
  constructor
  · rintro ((h | h) | h)
    · exact Or.inl (jsStartsWith_of_leading (h ▸ readHashParams_anchor_leading b.hash))
    · exact Or.inl h
    · exact Or.inr h
  · rintro (h | h)
    · exact Or.inl (Or.inr h)
    · exact Or.inr h

/-- C4 counterexample: the fragment `#projectsfoo` designates a section
other than projects (its anchor differs from `#projects`), yet
`applyFilters` overwrites the URL, because the code's guard is a prefix
test on the raw fragment.  This refutes the claim's "when the current
fragment designates a different section, the URL is left unchanged". -/
theorem c4_counterexample :
    (readHashParams "#projectsfoo".toList).1 ≠ projTok
    ∧ (applyFiltersUrl defaultState true
        { hash := "#projectsfoo".toList, histLen := 1 }).hash ≠ "#projectsfoo".toList := by
  exact ⟨by decide, by decide⟩

/-- C4 (amended): `applyFilters` writes the current state into the URL
fragment only when the current fragment starts with `#projects` (which
includes the exact projects anchor, but also fragments of sections whose
name merely extends it) or the fragment's anchor is empty; the write is
an in-place history replacement — the history entry count never changes
— and it never happens when suppressed (`updateUrl = false`); for any
other fragment the browser state is untouched. -/
theorem c4_url_write_frame (st : FilterState) (u : Bool) (b : Browser) :
    ((applyFiltersUrl st u b).histLen = b.histLen)
    ∧ (applyFiltersUrl st false b = b)
    ∧ (jsStartsWith b.hash projTok = false → (readHashParams b.hash).1 ≠ [] →
        applyFiltersUrl st true b = b)
    ∧ (jsStartsWith b.hash projTok = true ∨ (readHashParams b.hash).1 = [] →
        (applyFiltersUrl st true b).hash = writeHashNext projTok (stateKV st)) := by
  refine ⟨?_, rfl, ?_, ?_⟩
  · cases u with
    | false => rfl
    | true =>
      show (if (atProjectsHash b.hash || decide ((readHashParams b.hash).1 = [])) = true
        then writeHashParams b projTok (stateKV st) else b).histLen = b.histLen
      by_cases hg : (atProjectsHash b.hash || decide ((readHashParams b.hash).1 = [])) = true
      · rw [if_pos hg]
        rfl
      · rw [if_neg hg]
  · intro h1 h2
    show (if (atProjectsHash b.hash || decide ((readHashParams b.hash).1 = [])) = true
      then writeHashParams b projTok (stateKV st) else b) = b
    rw [if_neg]
    intro hg
    rcases (applyFiltersUrl_guard b).mp hg with h | h
    · rw [h1] at h
      cases h
    · exact h2 h
  · intro h
    show (if (atProjectsHash b.hash || decide ((readHashParams b.hash).1 = [])) = true
      then writeHashParams b projTok (stateKV st) else b).hash = _
    rw [if_pos ((applyFiltersUrl_guard b).mpr h)]
    rfl

/-- Witness for C4: an unrelated fragment is untouched, and the exact
projects anchor is rewritten in place. -/
theorem c4_witness :
    applyFiltersUrl defaultState true { hash := "#about".toList, histLen := 2 }
      = { hash := "#about".toList, histLen := 2 }
    ∧ (applyFiltersUrl demoState true { hash := projTok, histLen := 5 }).hash
      = writeHashNext projTok (stateKV demoState) :=
  ⟨(c4_url_write_frame defaultState true { hash := "#about".toList, histLen := 2 }).2.2.1
      (by decide) (by decide),
   (c4_url_write_frame demoState true { hash := projTok, histLen := 5 }).2.2.2
      (Or.inl (by decide))⟩

/-! ## Claim C9 -/

theorem foldl_searchInputEvent_recomputes :
    ∀ (qs : List JSStr) (sb : SearchBox),
      (qs.foldl searchInputEvent sb).recomputes = sb.recomputes
  | [], _ => rfl
  | q :: qs, sb => by
    rw [List.foldl_cons, foldl_searchInputEvent_recomputes qs _]
    rfl

theorem foldl_searchInputEvent_value :
    ∀ (qs : List JSStr) (sb : SearchBox),
      (qs.foldl searchInputEvent sb).value = qs.getLast?.getD sb.value
  | [], _ => rfl
  | q :: qs, sb => by
    rw [List.foldl_cons, foldl_searchInputEvent_value qs _]
    cases qs with
    | nil => rfl
    | cons q2 rest =>
      rw [List.getLast?_cons_cons, List.getLast?_eq_getLast (q2 :: rest) (by simp)]
      rfl

theorem foldl_searchInputEvent_armed :
    ∀ (qs : List JSStr) (sb : SearchBox), qs ≠ [] →
      (qs.foldl searchInputEvent sb).timerArmed = true
  | [], _, h => absurd rfl h
  | [q], sb, _ => rfl
  | q :: q2 :: rest, sb, _ => by
    rw [List.foldl_cons]
    exact foldl_searchInputEvent_armed (q2 :: rest) _ (by simp)

/-- C9: rapid sequential search-input events within the debounce window
(no timer expiry between them) cause no recomputation while they arrive —
each event cancels and restarts the pending timer — and when the timer
finally expires exactly one visibility recomputation runs, with the
last-supplied value (last-write-wins, no queuing). -/
theorem c9_debounce_last_write_wins (v0 : JSStr) (qs : List JSStr) (hne : qs ≠ []) :
    ((qs.foldl searchInputEvent { value := v0, timerArmed := false, recomputes := [] }).recomputes
      = [])
    ∧ (searchTimerExpire (qs.foldl searchInputEvent
        { value := v0, timerArmed := false, recomputes := [] })).recomputes
      = [qs.getLast hne] := by
  have hrec := foldl_searchInputEvent_recomputes qs
    { value := v0, timerArmed := false, recomputes := [] }
  have hval := foldl_searchInputEvent_value qs
    { value := v0, timerArmed := false, recomputes := [] }
  have harm := foldl_searchInputEvent_armed qs
    { value := v0, timerArmed := false, recomputes := [] } hne
  refine ⟨hrec, ?_⟩
  unfold searchTimerExpire
  rw [if_pos harm]
  show (qs.foldl searchInputEvent { value := v0, timerArmed := false, recomputes := [] }).recomputes
    ++ [(qs.foldl searchInputEvent
      { value := v0, timerArmed := false, recomputes := [] }).value] = _
  rw [hrec, hval, List.getLast?_eq_getLast qs hne]
  rfl

/-- Witness for C9: three queued keystrokes coalesce into a single
recomputation with the last value. -/
theorem c9_witness :
    ((["a".toList, "ab".toList, "abc".toList].foldl searchInputEvent
      { value := [], timerArmed := false, recomputes := [] }).recomputes = [])
    ∧ (searchTimerExpire (["a".toList, "ab".toList, "abc".toList].foldl searchInputEvent
        { value := [], timerArmed := false, recomputes := [] })).recomputes
      = [["a".toList, "ab".toList, "abc".toList].getLast (by decide)] :=
  c9_debounce_last_write_wins [] ["a".toList, "ab".toList, "abc".toList] (by decide)

/-! ## Claim C10 -/

theorem defaultState_normalized : stateNormalized defaultState :=
  ⟨by decide, by decide, by decide⟩

theorem setFilter_normalized {st : FilterState} (v : JSVal) (h : stateNormalized st) :
    stateNormalized (setFilter st v) := by
  refine ⟨?_, ?_, h.2.2⟩
  · show (if (normalize v = []) then allTok else normalize v) ≠ []
    by_cases hn : normalize v = []
    · rw [if_pos hn]
      decide
    · rw [if_neg hn]
      exact hn
  · show normalizeStr (if (normalize v = []) then allTok else normalize v)
      = (if (normalize v = []) then allTok else normalize v)
    by_cases hn : normalize v = []
    · rw [if_pos hn, normalizeStr_allTok]
    · rw [if_neg hn, normalizeStr_normalize]

theorem setQuery_normalized {st : FilterState} (v : JSVal) (h : stateNormalized st) :
    stateNormalized (setQuery st v) :=
  ⟨h.1, h.2.1, normalizeStr_normalize v⟩

/-- C10: the normal-form invariant holds after initialisation and is
preserved by every `setFilter` / `setQuery` call: `activeFilter` is
always a nonempty `normalize`-fixed (lowercase, trimmed,
whitespace-collapsed) token — falling back to `'all'` whenever the input
normalises to empty — and `activeQuery` always equals its own
normalisation, so the membership and substring predicates never compare
against un-normalised state. -/
theorem c10_state_invariant :
    stateNormalized defaultState
    ∧ (∀ hash : JSStr, stateNormalized (initStateFromHash hash))
    ∧ (∀ (st : FilterState) (v : JSVal), stateNormalized st → stateNormalized (setFilter st v))
    ∧ (∀ (st : FilterState) (v : JSVal), stateNormalized st → stateNormalized (setQuery st v))
    ∧ (∀ (st : FilterState) (v : JSVal), normalize v = [] →
        (setFilter st v).activeFilter = allTok) := by
  refine ⟨defaultState_normalized, ?_, fun st v h => setFilter_normalized v h,
    fun st v h => setQuery_normalized v h, ?_⟩
  · intro hash
    unfold initStateFromHash
    by_cases hat : atProjectsHash hash = true
    · rw [if_pos hat]
      exact setQuery_normalized _ (setFilter_normalized _ defaultState_normalized)
    · rw [if_neg hat]
      exact defaultState_normalized
  · intro st v hn
    show (if (normalize v = []) then allTok else normalize v) = allTok
    rw [if_pos hn]

/-- Witness for C10 at concrete inputs. -/
theorem c10_witness :
    stateNormalized (setFilter defaultState (JSVal.str "  WeB   dev ".toList))
    ∧ (setFilter defaultState (JSVal.str "   ".toList)).activeFilter = allTok :=
  ⟨c10_state_invariant.2.2.1 defaultState (JSVal.str "  WeB   dev ".toList)
      c10_state_invariant.1,
   c10_state_invariant.2.2.2.2 defaultState (JSVal.str "   ".toList) (by decide)⟩

end Portfolio
